import Mathlib

/-!
Verification of the incremental point-cloud stitching core of
`stereo_slam` (`src/reconstruction/base.cpp`,
`reconstruction::ReconstructionBase::build3D` and `readPoses`).

Modelling conventions:
* coordinates and distances are exact rationals (`ℚ`); the source's
  `float` arithmetic is embedded as exact rational arithmetic;
* the packed `rgb` field (an `int32` bit pattern `R<<16 | G<<8 | B`
  stored in a float, lines 296-313) is a natural number `< 2^24`;
* the `w` field only ever holds `0.0` or `1.0` in the source
  (lines 219-220, 343, 353, 372, 409), so it is embedded as a `Bool`;
* the PCL kd-tree collaborators (`radiusSearch`, `nearestKSearch`) are
  out-of-repo library code; they are modelled from the spec's interface
  (§6): a radius query returns `(index, squaredDistance)` pairs of
  snapshot points inside the radius, capped at `maxResults`, and a
  nearest-1 query returns a closest point (first minimum);
* `sqrt` on floats is embedded by `sqrtQ`, an exact computable stand-in
  that agrees with the mathematical square root on perfect squares of
  rationals; none of the proved properties depends on its values.
-/

/-- A point of the accumulated cloud: `PointXYZRGBW` of `base.cpp`
(position, packed rgb, blended-flag `w`). -/
structure PointW where
  x : ℚ
  y : ℚ
  z : ℚ
  rgb : ℕ
  w : Bool
deriving Repr, DecidableEq

instance : Inhabited PointW := ⟨⟨0, 0, 0, 0, false⟩⟩

/-- A point of the incoming (already preprocessed) cloud: `PointRGB`. -/
structure PointC where
  x : ℚ
  y : ℚ
  z : ℚ
  rgb : ℕ
deriving Repr, DecidableEq

instance : Inhabited PointC := ⟨⟨0, 0, 0, 0⟩⟩

/-- Planar squared distance, the metric of all three kd-trees
(`PointXY`, z ignored). -/
def sqDistXY (px py qx qy : ℚ) : ℚ :=
  (px - qx) ^ 2 + (py - qy) ^ 2

/-- Modelled from the spec (§6, spatial index collaborator; the PCL
`KdTreeFLANN::radiusSearch` of lines 235/270 is not part of this
repository): returns the `(index, squaredDistance)` pairs of the
snapshot points whose planar squared distance from `(sx, sy)` is within
the squared radius, capped at `maxN` results. -/
def radiusSearch (snapshot : List (ℚ × ℚ)) (sx sy radSq : ℚ) (maxN : ℕ) :
    List (ℕ × ℚ) :=
  ((snapshot.enum.map (fun ip => (ip.1, sqDistXY sx sy ip.2.1 ip.2.2))).filter
    (fun id => id.2 ≤ radSq)).take maxN

/-- Modelled from the spec (§6, spatial index collaborator;
`KdTreeFLANN::nearestKSearch` with `K = 1`, lines 241/294/383/389):
the `(index, squaredDistance)` of a closest snapshot point (first
minimum), or `none` for an empty snapshot. -/
def nearest1 (snapshot : List (ℚ × ℚ)) (sx sy : ℚ) : Option (ℕ × ℚ) :=
  (snapshot.enum.map (fun ip => (ip.1, sqDistXY sx sy ip.2.1 ip.2.2))).foldl
    (fun best cand =>
      match best with
      | none => some cand
      | some b => if cand.2 < b.2 then some cand else some b)
    none

/-- Position of the first minimal element of a distance list:
`min_element(v.begin(), v.end()) - v.begin()` of line 288. -/
def minIdxPos (ds : List ℚ) : ℕ :=
  match ds.min? with
  | none => 0
  | some m => ds.indexOf m

/-- Position (within the match list) of the primary match of line 288. -/
def primaryPos (ms : List (ℕ × ℚ)) : ℕ :=
  minIdxPos (ms.map Prod.snd)

/-- Accumulator index of the primary (closest) match:
`neighbor_idx[min_index]` of line 289. -/
def primaryIdx (ms : List (ℕ × ℚ)) : ℕ :=
  (ms.map Prod.fst).getD (primaryPos ms) 0

/-- Fueled Newton step for the integer square root of `n`. -/
def isqrtIter (n : ℕ) : ℕ → ℕ → ℕ
  | 0, x => x
  | fuel + 1, x =>
    let xn := (x + n / x) / 2
    if xn < x then isqrtIter n fuel xn else x

/-- Integer square root by Newton iteration (structural recursion, so
the kernel can evaluate it on concrete inputs). -/
def isqrt (n : ℕ) : ℕ :=
  if n = 0 then 0 else isqrtIter n n n

/-- Computable stand-in for the float `sqrt` of lines 243/307/402; exact
on perfect squares of rationals, which is all the concrete instances in
this file use.  No proved property depends on its values. -/
def sqrtQ (q : ℚ) : ℚ :=
  (isqrt q.num.toNat : ℚ) / (isqrt q.den : ℚ)

/-- Red channel of a packed rgb value: `(rgb >> 16) & 0x0000ff`. -/
def rgbR (rgb : ℕ) : ℕ := (rgb >>> 16) &&& 255

/-- Green channel of a packed rgb value: `(rgb >> 8) & 0x0000ff`. -/
def rgbG (rgb : ℕ) : ℕ := (rgb >>> 8) &&& 255

/-- Blue channel of a packed rgb value: `rgb & 0x0000ff`. -/
def rgbB (rgb : ℕ) : ℕ := rgb &&& 255

/-- Repacking of the blended channels: `(r << 16) | (g << 8) | b`
(lines 312/407). -/
def packRGB (r g b : ℕ) : ℕ :=
  (r <<< 16) ||| (g <<< 8) ||| b

/-- One channel of the blend `(1-alpha)*acc + alpha*cloud` (lines
308-310): the float result is converted back to `uint8_t`, which
truncates toward zero, embedded as the floor (the operands are
non-negative in every claim's range). -/
def channelBlend (alpha : ℚ) (a c : ℕ) : ℕ :=
  ((1 - alpha) * (a : ℚ) + alpha * (c : ℚ)).floor.toNat

/-- Full rgb blend of lines 296-313: unpack both colors, blend each
channel, repack. -/
def blendRGB (alpha : ℚ) (accRgb cloudRgb : ℕ) : ℕ :=
  packRGB (channelBlend alpha (rgbR accRgb) (rgbR cloudRgb))
          (channelBlend alpha (rgbG accRgb) (rgbG cloudRgb))
          (channelBlend alpha (rgbB accRgb) (rgbB cloudRgb))

/-- `voxel_size = 0.005` (line 101). -/
def voxelSize : ℚ := 5 / 1000

/-- Squared `max_dist` where `max_dist = sqrt(voxel_size²/2)`
(line 104); kept squared because the source only ever compares squared
distances against it (line 325). -/
def maxDistSq : ℚ := voxelSize ^ 2 / 2

/-- Squared coverage radius `2*max_dist` of the radius queries
(lines 235/270). -/
def covRadSq : ℚ := 4 * maxDistSq

/-- The per-point merge result branch taken by lines 333/348/357. -/
inductive MergeAction
  | disjointAppend
  | borderAppend
  | interiorOverwrite
deriving Repr, DecidableEq

/-- Modelled from the spec (§3/§4.4a: a fresh accumulator point carries
blended-flag 0; the default `w` of `PointXYZRGBW` is declared in
`base.h`, which is not under `src/`): the point appended at line 364. -/
def mkNewPoint (pt : PointC) : PointW :=
  ⟨pt.x, pt.y, pt.z, pt.rgb, false⟩

/-- Sequential pairwise halving of lines 274-284:
`z ← (z + neighbor.z)/2` for each neighbor in returned order. -/
def zFold (z0 : ℚ) (zs : List ℚ) : ℚ :=
  zs.foldl (fun z nz => (z + nz) / 2) z0

/-- The merged z of an incoming point with match list `ms`: the z fold
over the matched accumulator points' current z values (lines 274-284). -/
def mergedZ (acc : List PointW) (ms : List (ℕ × ℚ)) (pt : PointC) : ℚ :=
  zFold pt.z (ms.map (fun m => (acc.getD m.1 default).z))

/-- The merged rgb of an incoming point (lines 290-319): blended against
the primary match's color using the contour-distance alpha, or left at
the cloud's own color when the contour query finds nothing (line 318). -/
def mergedRGB (contour : List (ℚ × ℚ)) (maxCD : ℚ) (accRgb cloudRgb : ℕ)
    (sx sy : ℚ) : ℕ :=
  match nearest1 contour sx sy with
  | some r => blendRGB ((maxCD - sqrtQ r.2) / maxCD) accRgb cloudRgb
  | none => cloudRgb

/-- Insert/update stage for one incoming point (lines 266-365): query
the accumulator snapshot, then either append the point untouched (no
matches), append a blended border point, or overwrite the primary match
in place.  Returns the new accumulator, the branch taken, and
`acc_overlap_idx` (the matched snapshot indices, line 280). -/
def insertStage (snapshot contour : List (ℚ × ℚ)) (maxCD : ℚ)
    (acc : List PointW) (pt : PointC) :
    List PointW × MergeAction × List ℕ :=
  let ms := radiusSearch snapshot pt.x pt.y covRadSq 10
  if ms = [] then
    (acc ++ [mkNewPoint pt], .disjointAppend, [])
  else
    let zNew := mergedZ acc ms pt
    let pAcc := acc.getD (primaryIdx ms) default
    let rgbNew := mergedRGB contour maxCD pAcc.rgb pt.rgb pt.x pt.y
    let isBorder := ms.all (fun m => ¬ m.2 < maxDistSq)
    if isBorder then
      (acc ++ [⟨pt.x, pt.y, zNew, rgbNew, true⟩], .borderAppend,
        ms.map Prod.fst)
    else
      (acc.set (primaryIdx ms) { pAcc with z := zNew, rgb := rgbNew, w := true },
        .interiorOverwrite, ms.map Prod.fst)

/-- Collateral fix-up of one matched accumulator point (lines 368-412):
skip it when already blended this pass, otherwise re-blend its color
against the nearest point of the current incoming cloud and mark it
blended.  Skip branches return the point unchanged (the source simply
does not write it back, which leaves the accumulator identical). -/
def fixupPoint (contour cloudXY : List (ℚ × ℚ)) (cloud : List PointC)
    (maxCD : ℚ) (pAcc : PointW) : PointW :=
  if pAcc.w then pAcc
  else
    match nearest1 cloudXY pAcc.x pAcc.y with
    | none => pAcc
    | some c =>
      match nearest1 contour pAcc.x pAcc.y with
      | none => pAcc
      | some r =>
        { pAcc with
          rgb := blendRGB ((maxCD - sqrtQ r.2) / maxCD) pAcc.rgb
                   ((cloud.getD c.1 default).rgb)
          w := true }

/-- Collateral fix-up loop over `acc_overlap_idx` (lines 367-413). -/
def fixupStage (contour cloudXY : List (ℚ × ℚ)) (cloud : List PointC)
    (maxCD : ℚ) (acc : List PointW) (ov : List ℕ) : List PointW :=
  ov.foldl
    (fun a i => a.set i (fixupPoint contour cloudXY cloud maxCD (a.getD i default)))
    acc

/-- Full processing of one incoming point: insert/update stage followed
by the collateral fix-up, also returning the branch taken. -/
def processPointAct (snapshot contour cloudXY : List (ℚ × ℚ))
    (cloud : List PointC) (maxCD : ℚ) (acc : List PointW) (pt : PointC) :
    List PointW × MergeAction :=
  let r := insertStage snapshot contour maxCD acc pt
  (fixupStage contour cloudXY cloud maxCD r.1 r.2.2, r.2.1)

/-- Full processing of one incoming point (accumulator only). -/
def processPoint (snapshot contour cloudXY : List (ℚ × ℚ))
    (cloud : List PointC) (maxCD : ℚ) (acc : List PointW) (pt : PointC) :
    List PointW :=
  (processPointAct snapshot contour cloudXY cloud maxCD acc pt).1

/-- `max_contour_dist` of lines 222-248: the maximum distance to the
contour over all incoming points that have at least one accumulator
neighbor within the coverage radius. -/
def maxContourDist (snapshot contour : List (ℚ × ℚ)) (cloud : List PointC) :
    ℚ :=
  cloud.foldl
    (fun m q =>
      if radiusSearch snapshot q.x q.y covRadSq 1 ≠ [] then
        match nearest1 contour q.x q.y with
        | some r => let d := sqrtQ r.2; if d > m then d else m
        | none => m
      else m)
    0

/-- Planar projection of the accumulator (`copyPointCloud` to `PointXY`,
lines 179-180). -/
def snapXY (acc : List PointW) : List (ℚ × ℚ) :=
  acc.map (fun p => (p.x, p.y))

/-- Planar projection of the incoming cloud (lines 213-214). -/
def cloudXYof (cloud : List PointC) : List (ℚ × ℚ) :=
  cloud.map (fun p => (p.x, p.y))

/-- One whole merge pass of a preprocessed cloud into the accumulator
(lines 204-414): reset every blended-flag (lines 219-220), build the
three planar snapshots, compute `max_contour_dist`, then fold the
per-point processing over the cloud, also collecting the branch taken
for every point.  The kd-tree snapshot is fixed before the loop, so
points appended mid-pass are invisible to the remaining queries. -/
def mergeCloudTrace (acc0 : List PointW) (cloud : List PointC)
    (contour : List (ℚ × ℚ)) : List PointW × List MergeAction :=
  let accR := acc0.map (fun p => { p with w := false })
  let snapshot := snapXY accR
  let cloudXY := cloudXYof cloud
  let maxCD := maxContourDist snapshot contour cloud
  cloud.foldl
    (fun st pt =>
      let r := processPointAct snapshot contour cloudXY cloud maxCD st.1 pt
      (r.1, st.2 ++ [r.2]))
    (accR, [])

/-- One whole merge pass (accumulator only). -/
def mergeCloud (acc0 : List PointW) (cloud : List PointC)
    (contour : List (ℚ × ℚ)) : List PointW :=
  (mergeCloudTrace acc0 cloud contour).1

/-- Modelled from the spec (§6: pose-list parsing is thin I/O;
`ifstream` + `getline` on a missing or unreadable file yields no
lines): the pose file content, `none` meaning missing/unreadable. -/
def fileLines : Option (List String) → List String
  | none => []
  | some ls => ls

/-- The cloud name extracted from one comma-separated pose-file row
(lines 503-506): field 1 with `".pcd"` appended. -/
def parseCloudName (line : String) : String :=
  (line.splitOn ",").getD 1 "" ++ ".pcd"

/-- `readPoses` (lines 486-530) as observed by `build3D`: the boolean
result and the parsed cloud-name list.  The source's only return
statement is `return true` at line 529, so the function returns `true`
on every input — including a missing or unreadable file, where the
`getline` loop runs zero times — despite its own doc comment
"@return true if poses read correctly, false otherwise". -/
def readPosesResult (file : Option (List String)) : Bool × List String :=
  (true, (fileLines file).map parseCloudName)

/-- What a run of `build3D` does overall. -/
inductive RunOutcome
  | aborted
  | savedOutput (numClouds : ℕ)
deriving Repr, DecidableEq

/-- Control-flow skeleton of `build3D` (lines 94-98 and 420-455) at the
granularity claim C1 needs: return early (no processing, no save) when
`readPoses` yields `false`; otherwise run the per-cloud loop over the
returned pose list and reach the final filter-and-save step
(`savePCDFile`, line 452) unconditionally. -/
def build3DOutcome (file : Option (List String)) : RunOutcome :=
  if (readPosesResult file).1 = false then .aborted
  else .savedOutput (readPosesResult file).2.length

/-- Number of pre-existing accumulator positions whose point changed
between two accumulator states. -/
def mutatedCount (before after : List PointW) : ℕ :=
  (List.range before.length).countP
    (fun i => decide (before.getD i default ≠ after.getD i default))

/-- Concrete two-point accumulator: one point at the origin (an
interior match for `ptOrigin`) and one in the outer annulus at planar
distance `1/200` (inside the coverage radius, outside `max_dist`). -/
def accTwo : List PointW :=
  [⟨0, 0, 0, packRGB 10 20 30, false⟩,
   ⟨1 / 200, 0, 0, packRGB 40 50 60, false⟩]

/-- Concrete one-point accumulator holding only the annulus point, so
that `ptOrigin` is classified border against it. -/
def accOne : List PointW :=
  [⟨1 / 200, 0, 0, packRGB 40 50 60, false⟩]

/-- Concrete incoming point at the origin. -/
def ptOrigin : PointC := ⟨0, 0, 4, packRGB 200 100 50⟩

/-- Concrete one-point incoming cloud. -/
def cloudOne : List PointC := [ptOrigin]

/-- Concrete one-point contour at the origin. -/
def contourOne : List (ℚ × ℚ) := [(0, 0)]

/-- The match list of one incoming point against the accumulator
snapshot: the `radiusSearch` call of line 270 (`K = 10`). -/
def msOf (snapshot : List (ℚ × ℚ)) (pt : PointC) : List (ℕ × ℚ) :=
  radiusSearch snapshot pt.x pt.y covRadSq 10

/-- Concrete accumulator far away from `ptOrigin` (planar distance 10,
far outside the coverage radius). -/
def accFar : List PointW :=
  [⟨10, 0, 7, packRGB 1 2 3, false⟩]

/-! ### Generic list access helpers -/

lemma getD_append_left {α : Type} (l₂ : List α) (d : α) :
    ∀ (l₁ : List α) (i : ℕ), i < l₁.length → (l₁ ++ l₂).getD i d = l₁.getD i d
  | [], i, h => by simp at h
  | _ :: _, 0, _ => rfl
  | _ :: t, i + 1, h =>
    getD_append_left l₂ d t i (Nat.lt_of_succ_lt_succ h)

lemma getD_append_right {α : Type} (l₂ : List α) (d : α) :
    ∀ (l₁ : List α) (j : ℕ), (l₁ ++ l₂).getD (l₁.length + j) d = l₂.getD j d
  | [], j => by simp
  | a :: t, j => by
    have h1 : (a :: t).length + j = (t.length + j) + 1 := by
      simp only [List.length_cons]; omega
    rw [List.cons_append, h1, List.getD_cons_succ]
    exact getD_append_right l₂ d t j

lemma getD_set_cases {α : Type} (a d : α) :
    ∀ (l : List α) (j i : ℕ),
      (l.set j a).getD i d = if i = j ∧ j < l.length then a else l.getD i d
  | [], j, i => by simp
  | b :: t, 0, 0 => by simp
  | b :: t, 0, i + 1 => by simp
  | b :: t, j + 1, 0 => by simp
  | b :: t, j + 1, i + 1 => by
    have h := getD_set_cases a d t j i
    simp only [List.set_cons_succ, List.getD_cons_succ, h, List.length_cons]
    by_cases hc : i = j ∧ j < t.length
    · rw [if_pos hc, if_pos (by omega)]
    · rw [if_neg hc, if_neg (by omega)]

lemma getD_map_lt {α β : Type} (f : α → β) (dα : α) (dβ : β) :
    ∀ (l : List α) (i : ℕ), i < l.length →
      (l.map f).getD i dβ = f (l.getD i dα)
  | [], i, h => by simp at h
  | _ :: _, 0, _ => rfl
  | _ :: t, i + 1, h => getD_map_lt f dα dβ t i (Nat.lt_of_succ_lt_succ h)

/-! ### Fix-up stage structure -/

lemma fixupPoint_x (ct cx : List (ℚ × ℚ)) (cl : List PointC) (m : ℚ)
    (p : PointW) : (fixupPoint ct cx cl m p).x = p.x := by
  unfold fixupPoint
  split
  · rfl
  · split
    · rfl
    · split
      · rfl
      · rfl

lemma fixupPoint_y (ct cx : List (ℚ × ℚ)) (cl : List PointC) (m : ℚ)
    (p : PointW) : (fixupPoint ct cx cl m p).y = p.y := by
  unfold fixupPoint
  split
  · rfl
  · split
    · rfl
    · split
      · rfl
      · rfl

lemma fixupPoint_z (ct cx : List (ℚ × ℚ)) (cl : List PointC) (m : ℚ)
    (p : PointW) : (fixupPoint ct cx cl m p).z = p.z := by
  unfold fixupPoint
  split
  · rfl
  · split
    · rfl
    · split
      · rfl
      · rfl

lemma fixupStage_nil (ct cx : List (ℚ × ℚ)) (cl : List PointC) (m : ℚ)
    (acc : List PointW) : fixupStage ct cx cl m acc [] = acc := rfl

lemma fixupStage_cons (ct cx : List (ℚ × ℚ)) (cl : List PointC) (m : ℚ)
    (acc : List PointW) (j : ℕ) (t : List ℕ) :
    fixupStage ct cx cl m acc (j :: t) =
      fixupStage ct cx cl m
        (acc.set j (fixupPoint ct cx cl m (acc.getD j default))) t := rfl

lemma fixupStage_length (ct cx : List (ℚ × ℚ)) (cl : List PointC) (m : ℚ) :
    ∀ (ov : List ℕ) (acc : List PointW),
      (fixupStage ct cx cl m acc ov).length = acc.length
  | [], _ => rfl
  | j :: t, acc => by
    rw [fixupStage_cons, fixupStage_length ct cx cl m t, List.length_set]

lemma fixupStage_xyz (ct cx : List (ℚ × ℚ)) (cl : List PointC) (m : ℚ) :
    ∀ (ov : List ℕ) (acc : List PointW) (i : ℕ),
      ((fixupStage ct cx cl m acc ov).getD i default).x
          = (acc.getD i default).x ∧
      ((fixupStage ct cx cl m acc ov).getD i default).y
          = (acc.getD i default).y ∧
      ((fixupStage ct cx cl m acc ov).getD i default).z
          = (acc.getD i default).z
  | [], _, _ => ⟨rfl, rfl, rfl⟩
  | j :: t, acc, i => by
    rw [fixupStage_cons]
    have ih := fixupStage_xyz ct cx cl m t
      (acc.set j (fixupPoint ct cx cl m (acc.getD j default))) i
    have hset := getD_set_cases
      (fixupPoint ct cx cl m (acc.getD j default)) (default : PointW) acc j i
    by_cases hc : i = j ∧ j < acc.length
    · rw [if_pos hc] at hset
      obtain ⟨hij, hjl⟩ := hc
      subst hij
      refine ⟨?_, ?_, ?_⟩
      · rw [ih.1, hset, fixupPoint_x]
      · rw [ih.2.1, hset, fixupPoint_y]
      · rw [ih.2.2, hset, fixupPoint_z]
    · rw [if_neg hc] at hset
      exact ⟨by rw [ih.1, hset], by rw [ih.2.1, hset], by rw [ih.2.2, hset]⟩

lemma fixupStage_getD_char (ct cx : List (ℚ × ℚ)) (cl : List PointC) (m : ℚ) :
    ∀ (ov : List ℕ) (acc : List PointW), ov.Nodup →
      (∀ j ∈ ov, j < acc.length) → ∀ i : ℕ,
      (fixupStage ct cx cl m acc ov).getD i default =
        if i ∈ ov then fixupPoint ct cx cl m (acc.getD i default)
        else acc.getD i default
  | [], acc, _, _, i => by simp [fixupStage_nil]
  | j :: t, acc, hnd, hlt, i => by
    rw [fixupStage_cons]
    have hjlen : j < acc.length := hlt j (List.mem_cons_self j t)
    have hnd' : t.Nodup := (List.nodup_cons.mp hnd).2
    have hjt : j ∉ t := (List.nodup_cons.mp hnd).1
    have hlt' : ∀ k ∈ t, k <
        (acc.set j (fixupPoint ct cx cl m (acc.getD j default))).length := by
      intro k hk
      rw [List.length_set]
      exact hlt k (List.mem_cons_of_mem j hk)
    have ih := fixupStage_getD_char ct cx cl m t
      (acc.set j (fixupPoint ct cx cl m (acc.getD j default))) hnd' hlt' i
    have hset := getD_set_cases
      (fixupPoint ct cx cl m (acc.getD j default)) (default : PointW) acc j
    by_cases hij : i = j
    · subst hij
      rw [ih, if_neg hjt]
      simp only [hset i]
      rw [if_pos (And.intro trivial hjlen),
        if_pos (List.mem_cons_self i t)]
    · have hcond : ¬(i = j ∧ j < acc.length) := fun hc => hij hc.1
      have hm : i ∈ j :: t ↔ i ∈ t := by
        simp [List.mem_cons, hij]
      rw [ih]
      simp only [hset i, if_neg hcond]
      by_cases hit : i ∈ t
      · rw [if_pos hit, if_pos (hm.mpr hit)]
      · rw [if_neg hit, if_neg (fun hx => hit (hm.mp hx))]

/-! ### Radius-query index structure -/

lemma radiusSearch_fst_sublist (s : List (ℚ × ℚ)) (sx sy r : ℚ) (n : ℕ) :
    ((radiusSearch s sx sy r n).map Prod.fst).Sublist (List.range s.length) := by
  have h1 : List.Sublist (radiusSearch s sx sy r n)
      (s.enum.map (fun ip => (ip.1, sqDistXY sx sy ip.2.1 ip.2.2))) :=
    (List.take_sublist _ _).trans (List.filter_sublist _)
  have h3 := h1.map Prod.fst
  rw [List.map_map] at h3
  have hcomp :
      (Prod.fst ∘ fun ip : ℕ × (ℚ × ℚ) => (ip.1, sqDistXY sx sy ip.2.1 ip.2.2))
        = (Prod.fst : ℕ × (ℚ × ℚ) → ℕ) := rfl
  rw [hcomp, List.enum_map_fst] at h3
  exact h3

lemma radiusSearch_fst_nodup (s : List (ℚ × ℚ)) (sx sy r : ℚ) (n : ℕ) :
    ((radiusSearch s sx sy r n).map Prod.fst).Nodup :=
  (radiusSearch_fst_sublist s sx sy r n).nodup (List.nodup_range _)

lemma radiusSearch_fst_lt (s : List (ℚ × ℚ)) (sx sy r : ℚ) (n : ℕ) :
    ∀ j ∈ (radiusSearch s sx sy r n).map Prod.fst, j < s.length := by
  intro j hj
  exact List.mem_range.mp ((radiusSearch_fst_sublist s sx sy r n).subset hj)

lemma radiusSearch_eq_nil (s : List (ℚ × ℚ)) (sx sy r : ℚ) (n : ℕ)
    (h : ∀ q ∈ s, ¬ sqDistXY sx sy q.1 q.2 ≤ r) :
    radiusSearch s sx sy r n = [] := by
  unfold radiusSearch
  have hf : (s.enum.map
      (fun ip => (ip.1, sqDistXY sx sy ip.2.1 ip.2.2))).filter
      (fun id => id.2 ≤ r) = [] := by
    rw [List.filter_eq_nil_iff]
    intro a ha
    obtain ⟨ip, hip, rfl⟩ := List.mem_map.mp ha
    obtain ⟨i, q⟩ := ip
    have hq : q ∈ s :=
      List.getElem?_mem (List.mk_mem_enum_iff_getElem?.mp hip)
    simpa using h q hq
  rw [hf, List.take_nil]

/-! ### The primary match is a closest match -/

lemma primary_closest (ms : List (ℕ × ℚ)) (hne : ms ≠ []) :
    ∃ h : primaryPos ms < ms.length,
      (ms.get ⟨primaryPos ms, h⟩).1 = primaryIdx ms ∧
      ∀ mm ∈ ms, (ms.get ⟨primaryPos ms, h⟩).2 ≤ mm.2 := by
  have hdne : ms.map Prod.snd ≠ [] := by
    intro hcon
    exact hne (List.map_eq_nil_iff.mp hcon)
  cases hin : (ms.map Prod.snd).min? with
  | none => exact absurd (List.min?_eq_none_iff.mp hin) hdne
  | some mval =>
    have hmem : mval ∈ ms.map Prod.snd := List.min?_mem min_choice hin
    have hle : ∀ b ∈ ms.map Prod.snd, mval ≤ b := by
      intro b hb
      exact (List.le_min?_iff (fun a b c => le_min_iff) hin).mp (le_refl mval) b hb
    have hpos : primaryPos ms = (ms.map Prod.snd).indexOf mval := by
      simp [primaryPos, minIdxPos, hin]
    have hidx : (ms.map Prod.snd).indexOf mval < (ms.map Prod.snd).length :=
      List.indexOf_lt_length.mpr hmem
    have hlen : primaryPos ms < ms.length := by
      rw [hpos]
      simpa using hidx
    refine ⟨hlen, ?_, ?_⟩
    · have hgetD : (ms.map Prod.fst).getD (primaryPos ms) 0
          = (ms.map Prod.fst).get ⟨primaryPos ms, by simpa using hlen⟩ := by
        rw [List.getD_eq_getElem?_getD, List.getElem?_eq_getElem (by simpa using hlen)]
        rfl
      rw [primaryIdx, hgetD]
      simp
    · intro mm hmm
      have hval : (ms.map Prod.snd).get ⟨primaryPos ms, by simpa using hlen⟩
          = mval := by
        have := List.indexOf_get (a := mval) (l := ms.map Prod.snd) hidx
        simp only [hpos]
        exact this
      have hsnd : (ms.get ⟨primaryPos ms, hlen⟩).2 = mval := by
        rw [← hval]
        simp
      rw [hsnd]
      exact hle mm.2 (List.mem_map.mpr ⟨mm, hmm, rfl⟩)

/-! ### Insert-stage case analysis -/

lemma insertStage_of_nil (snapshot ct : List (ℚ × ℚ)) (m : ℚ)
    (acc : List PointW) (pt : PointC)
    (h : radiusSearch snapshot pt.x pt.y covRadSq 10 = []) :
    insertStage snapshot ct m acc pt =
      (acc ++ [mkNewPoint pt], .disjointAppend, []) := by
  simp [insertStage, h]

lemma insertStage_of_border (snapshot ct : List (ℚ × ℚ)) (m : ℚ)
    (acc : List PointW) (pt : PointC)
    (hne : radiusSearch snapshot pt.x pt.y covRadSq 10 ≠ [])
    (hb : (radiusSearch snapshot pt.x pt.y covRadSq 10).all
        (fun mm => ¬ mm.2 < maxDistSq) = true) :
    insertStage snapshot ct m acc pt =
      (acc ++ [⟨pt.x, pt.y,
          mergedZ acc (radiusSearch snapshot pt.x pt.y covRadSq 10) pt,
          mergedRGB ct m
            ((acc.getD
              (primaryIdx (radiusSearch snapshot pt.x pt.y covRadSq 10))
              default).rgb)
            pt.rgb pt.x pt.y,
          true⟩],
        .borderAppend,
        (radiusSearch snapshot pt.x pt.y covRadSq 10).map Prod.fst) := by
  simp [insertStage, hne, hb]
  intro a b hab
  have h1 := List.all_eq_true.mp hb (a, b) hab
  simpa using h1

lemma insertStage_of_interior (snapshot ct : List (ℚ × ℚ)) (m : ℚ)
    (acc : List PointW) (pt : PointC)
    (hne : radiusSearch snapshot pt.x pt.y covRadSq 10 ≠ [])
    (hb : (radiusSearch snapshot pt.x pt.y covRadSq 10).all
        (fun mm => ¬ mm.2 < maxDistSq) = false) :
    insertStage snapshot ct m acc pt =
      (acc.set (primaryIdx (radiusSearch snapshot pt.x pt.y covRadSq 10))
        { acc.getD (primaryIdx (radiusSearch snapshot pt.x pt.y covRadSq 10))
            default with
          z := mergedZ acc (radiusSearch snapshot pt.x pt.y covRadSq 10) pt,
          rgb := mergedRGB ct m
            ((acc.getD
              (primaryIdx (radiusSearch snapshot pt.x pt.y covRadSq 10))
              default).rgb)
            pt.rgb pt.x pt.y,
          w := true },
        .interiorOverwrite,
        (radiusSearch snapshot pt.x pt.y covRadSq 10).map Prod.fst) := by
  simp [insertStage, hne, hb]
  obtain ⟨mm, hmem, hdec⟩ := List.all_eq_false.mp hb
  exact ⟨mm.1, mm.2, by simpa using hmem, by simpa using hdec⟩

/-! ### Whole-pass structure for disjoint clouds -/

lemma processPointAct_of_nil (snapshot ct cx : List (ℚ × ℚ))
    (cl : List PointC) (m : ℚ) (acc : List PointW) (pt : PointC)
    (h : radiusSearch snapshot pt.x pt.y covRadSq 10 = []) :
    processPointAct snapshot ct cx cl m acc pt =
      (acc ++ [mkNewPoint pt], .disjointAppend) := by
  unfold processPointAct
  rw [insertStage_of_nil snapshot ct m acc pt h]
  rfl

lemma mergeFold_disjoint (snapshot ct cx : List (ℚ × ℚ)) (cl : List PointC)
    (m : ℚ) :
    ∀ (cloud : List PointC) (acc : List PointW) (acts : List MergeAction),
      (∀ p ∈ cloud, radiusSearch snapshot p.x p.y covRadSq 10 = []) →
      cloud.foldl
        (fun st pt =>
          let r := processPointAct snapshot ct cx cl m st.1 pt
          (r.1, st.2 ++ [r.2]))
        (acc, acts)
      = (acc ++ cloud.map mkNewPoint,
         acts ++ cloud.map (fun _ => MergeAction.disjointAppend))
  | [], acc, acts, _ => by simp
  | p :: t, acc, acts, h => by
    rw [List.foldl_cons]
    have hp := processPointAct_of_nil snapshot ct cx cl m acc p
      (h p (List.mem_cons_self p t))
    simp only [hp]
    rw [mergeFold_disjoint snapshot ct cx cl m t (acc ++ [mkNewPoint p])
      (acts ++ [MergeAction.disjointAppend])
      (fun q hq => h q (List.mem_cons_of_mem p hq))]
    simp [List.append_assoc]

lemma maxContourDist_of_disjoint (snapshot ct : List (ℚ × ℚ)) :
    ∀ (cloud : List PointC),
      (∀ p ∈ cloud, radiusSearch snapshot p.x p.y covRadSq 1 = []) →
      maxContourDist snapshot ct cloud = 0
  | [], _ => rfl
  | p :: t, h => by
    unfold maxContourDist
    rw [List.foldl_cons]
    have hp : radiusSearch snapshot p.x p.y covRadSq 1 = [] :=
      h p (List.mem_cons_self p t)
    simp only [hp, ne_eq, not_true_eq_false, if_false]
    exact maxContourDist_of_disjoint snapshot ct t
      (fun q hq => h q (List.mem_cons_of_mem p hq))

lemma map_resetW_of_all_false :
    ∀ (acc : List PointW), (∀ p ∈ acc, p.w = false) →
      acc.map (fun p => { p with w := false }) = acc
  | [], _ => rfl
  | p :: t, h => by
    have hp : p.w = false := h p (List.mem_cons_self p t)
    have ht := map_resetW_of_all_false t
      (fun q hq => h q (List.mem_cons_of_mem p hq))
    rw [List.map_cons, ht]
    congr 1
    cases p
    simp_all

lemma snapXY_reset (acc : List PointW) :
    snapXY (acc.map (fun p => { p with w := false })) = snapXY acc := by
  simp [snapXY, List.map_map]

lemma mergeCloudTrace_disjoint (acc0 : List PointW) (cloud : List PointC)
    (ct : List (ℚ × ℚ))
    (hdis : ∀ p ∈ cloud, ∀ b ∈ acc0, covRadSq < sqDistXY p.x p.y b.x b.y) :
    mergeCloudTrace acc0 cloud ct =
      (acc0.map (fun p => { p with w := false }) ++ cloud.map mkNewPoint,
       cloud.map (fun _ => MergeAction.disjointAppend)) := by
  have hrs : ∀ p ∈ cloud, ∀ n,
      radiusSearch (snapXY (acc0.map (fun q => { q with w := false })))
        p.x p.y covRadSq n = [] := by
    intro p hp n
    apply radiusSearch_eq_nil
    intro q hq
    rw [snapXY_reset] at hq
    obtain ⟨b, hb, rfl⟩ := List.mem_map.mp hq
    exact not_le.mpr (hdis p hp b hb)
  unfold mergeCloudTrace
  rw [mergeFold_disjoint _ ct _ cloud _ cloud
    (acc0.map (fun p => { p with w := false })) []
    (fun p hp => hrs p hp 10)]
  simp

/-! ### Overlap-index facts -/

lemma primaryIdx_mem (ms : List (ℕ × ℚ)) (hne : ms ≠ []) :
    primaryIdx ms ∈ ms.map Prod.fst := by
  obtain ⟨h, hfst, _⟩ := primary_closest ms hne
  rw [← hfst]
  exact List.mem_map.mpr ⟨ms.get ⟨primaryPos ms, h⟩,
    List.get_mem ms (primaryPos ms) h, rfl⟩

lemma msOf_fst_nodup (snapshot : List (ℚ × ℚ)) (pt : PointC) :
    ((msOf snapshot pt).map Prod.fst).Nodup :=
  radiusSearch_fst_nodup snapshot pt.x pt.y covRadSq 10

lemma msOf_fst_lt (snapshot : List (ℚ × ℚ)) (pt : PointC)
    (acc : List PointW) (hsl : snapshot.length ≤ acc.length) :
    ∀ j ∈ (msOf snapshot pt).map Prod.fst, j < acc.length :=
  fun j hj =>
    lt_of_lt_of_le (radiusSearch_fst_lt snapshot pt.x pt.y covRadSq 10 j hj) hsl

/-! ### Claim theorems -/

/-- C1: the claim says a missing/unreadable pose list aborts the whole
run fatally, with no processing and no persisted output.  The code
disagrees: `readPoses` ends in `return true` unconditionally (line 529),
so `build3D`'s guard `if (!readPoses(cloud_poses)) return;` (line 98)
never fires; on a missing file the per-cloud loop runs over an empty
pose list and the run still reaches the final filter-and-save step,
persisting an (empty) reconstruction — contradicting `readPoses`' own
doc comment "@return true if poses read correctly, false otherwise".
This theorem evaluates the model at the failing input. -/
theorem C1_missing_pose_file_not_fatal :
    (readPosesResult none).1 = true ∧
    (∀ file : Option (List String), (readPosesResult file).1 = true) ∧
    build3DOutcome none = RunOutcome.savedOutput 0 ∧
    build3DOutcome none ≠ RunOutcome.aborted := by
  refine ⟨rfl, fun _ => rfl, rfl, ?_⟩
  decide

/-- C9: for a blend weight alpha in [0,1] and 8-bit channel values, the
blended channel `(1-alpha)*acc + alpha*cloud` (lines 308-310, including
the truncating conversion back to `uint8_t`) lies between the
accumulator channel and the cloud channel, inclusive. -/
theorem C9_blend_channel_bounds (alpha : ℚ) (a c : ℕ)
    (h0 : 0 ≤ alpha) (h1 : alpha ≤ 1) (ha : a ≤ 255) (hc : c ≤ 255) :
    min a c ≤ channelBlend alpha a c ∧ channelBlend alpha a c ≤ max a c := by
  have la : ((min a c : ℕ) : ℚ) ≤ (a : ℚ) := by
    exact_mod_cast min_le_left a c
  have lc : ((min a c : ℕ) : ℚ) ≤ (c : ℚ) := by
    exact_mod_cast min_le_right a c
  have ua : (a : ℚ) ≤ ((max a c : ℕ) : ℚ) := by
    exact_mod_cast le_max_left a c
  have uc : (c : ℚ) ≤ ((max a c : ℕ) : ℚ) := by
    exact_mod_cast le_max_right a c
  have hminq : ((min a c : ℕ) : ℚ)
      ≤ (1 - alpha) * (a : ℚ) + alpha * (c : ℚ) := by
    nlinarith
  have hmaxq : (1 - alpha) * (a : ℚ) + alpha * (c : ℚ)
      ≤ ((max a c : ℕ) : ℚ) := by
    nlinarith
  constructor
  · have hfl : ((min a c : ℕ) : ℤ)
        ≤ ((1 - alpha) * (a : ℚ) + alpha * (c : ℚ)).floor :=
      Rat.le_floor.mpr (by exact_mod_cast hminq)
    have h2 := Int.toNat_le_toNat hfl
    rw [Int.toNat_natCast] at h2
    simpa only [channelBlend] using h2
  · have hub : ((1 - alpha) * (a : ℚ) + alpha * (c : ℚ)).floor
        ≤ ((max a c : ℕ) : ℤ) := by
      by_contra hcon
      push_neg at hcon
      have h5 : ((max a c : ℕ) : ℤ) + 1
          ≤ ((1 - alpha) * (a : ℚ) + alpha * (c : ℚ)).floor := hcon
      have h6 := Rat.le_floor.mp h5
      have h7 : ((max a c : ℕ) : ℚ) + 1
          ≤ (1 - alpha) * (a : ℚ) + alpha * (c : ℚ) := by
        push_cast at h6 ⊢
        linarith
      linarith [hmaxq]
    have h4 : ((1 - alpha) * (a : ℚ) + alpha * (c : ℚ)).floor.toNat
        ≤ max a c := Int.toNat_le.mpr hub
    simpa only [channelBlend] using h4

/-- Witness for C9 at alpha = 1/2, channels 10 and 200. -/
theorem C9_blend_channel_bounds_witness :
    ((0 : ℚ) ≤ 1 / 2 ∧ (1 / 2 : ℚ) ≤ 1 ∧ (10 : ℕ) ≤ 255 ∧ (200 : ℕ) ≤ 255) ∧
    (min 10 200 ≤ channelBlend (1 / 2) 10 200 ∧
      channelBlend (1 / 2) 10 200 ≤ max 10 200) :=
  ⟨⟨by norm_num, by norm_num, by norm_num, by norm_num⟩,
    C9_blend_channel_bounds (1 / 2) 10 200 (by norm_num) (by norm_num)
      (by norm_num) (by norm_num)⟩

/-- C10: the collateral fix-up loop (lines 367-413) never changes the
length of the accumulator nor the x, y or z coordinate of any
accumulator point; it only touches rgb and the blended-flag. -/
theorem C10_fixup_only_color_flag (ct cx : List (ℚ × ℚ)) (cl : List PointC)
    (m : ℚ) (acc : List PointW) (ov : List ℕ) :
    (fixupStage ct cx cl m acc ov).length = acc.length ∧
    ∀ i : ℕ,
      ((fixupStage ct cx cl m acc ov).getD i default).x
          = (acc.getD i default).x ∧
      ((fixupStage ct cx cl m acc ov).getD i default).y
          = (acc.getD i default).y ∧
      ((fixupStage ct cx cl m acc ov).getD i default).z
          = (acc.getD i default).z :=
  ⟨fixupStage_length ct cx cl m ov acc,
    fun i => fixupStage_xyz ct cx cl m ov acc i⟩

/-- C6: an incoming point with zero accumulator matches inside the
coverage radius (line 357, else-branch) is appended unchanged with
blended-flag 0; the accumulator grows by exactly one and the fix-up
loop has nothing to do. -/
theorem C6_new_point_append (snapshot ct cx : List (ℚ × ℚ))
    (cl : List PointC) (m : ℚ) (acc : List PointW) (pt : PointC)
    (h : radiusSearch snapshot pt.x pt.y covRadSq 10 = []) :
    processPoint snapshot ct cx cl m acc pt
        = acc ++ [⟨pt.x, pt.y, pt.z, pt.rgb, false⟩] ∧
    (processPoint snapshot ct cx cl m acc pt).length = acc.length + 1 ∧
    ((processPoint snapshot ct cx cl m acc pt).getD acc.length default).w
        = false := by
  have hp : processPoint snapshot ct cx cl m acc pt
      = acc ++ [mkNewPoint pt] := by
    unfold processPoint
    rw [processPointAct_of_nil snapshot ct cx cl m acc pt h]
  refine ⟨hp, ?_, ?_⟩
  · rw [hp]
    simp
  · rw [hp]
    have h2 := getD_append_right [mkNewPoint pt] (default : PointW) acc 0
    simpa [mkNewPoint] using h2

/-- Witness for C6: an empty accumulator and the concrete origin point. -/
theorem C6_new_point_append_witness :
    radiusSearch (snapXY []) ptOrigin.x ptOrigin.y covRadSq 10 = [] ∧
    (processPoint (snapXY []) contourOne (cloudXYof cloudOne) cloudOne 1
        ([] : List PointW) ptOrigin
      = ([] : List PointW)
          ++ [⟨ptOrigin.x, ptOrigin.y, ptOrigin.z, ptOrigin.rgb, false⟩] ∧
    (processPoint (snapXY []) contourOne (cloudXYof cloudOne) cloudOne 1
        ([] : List PointW) ptOrigin).length
      = ([] : List PointW).length + 1 ∧
    ((processPoint (snapXY []) contourOne (cloudXYof cloudOne) cloudOne 1
        ([] : List PointW) ptOrigin).getD ([] : List PointW).length
        default).w = false) :=
  ⟨rfl, C6_new_point_append (snapXY []) contourOne (cloudXYof cloudOne)
    cloudOne 1 ([] : List PointW) ptOrigin rfl⟩

/-- C5: with at least one accumulator match, the merged z (whether
appended as a border point or overwritten into the primary match) is
the left fold of sequential pairwise halving over the matched
neighbors' z values in the order returned by the index
(lines 274-284); the fold is not the plain arithmetic mean (the last
conjunct: z0 = 4 with two zero neighbors folds to 1, the mean is 4/3). -/
theorem C5_sequential_z_fold (snapshot ct : List (ℚ × ℚ)) (m : ℚ)
    (acc : List PointW) (pt : PointC)
    (hne : msOf snapshot pt ≠ []) :
    ((insertStage snapshot ct m acc pt).2.1 = MergeAction.borderAppend →
      ((insertStage snapshot ct m acc pt).1.getD acc.length default).z
        = zFold pt.z
            ((msOf snapshot pt).map (fun mm => (acc.getD mm.1 default).z))) ∧
    ((insertStage snapshot ct m acc pt).2.1 = MergeAction.interiorOverwrite →
      primaryIdx (msOf snapshot pt) < acc.length →
      ((insertStage snapshot ct m acc pt).1.getD
          (primaryIdx (msOf snapshot pt)) default).z
        = zFold pt.z
            ((msOf snapshot pt).map (fun mm => (acc.getD mm.1 default).z))) ∧
    zFold 4 [0, 0] ≠ (4 + 0 + 0) / 3 := by
  have hne' : radiusSearch snapshot pt.x pt.y covRadSq 10 ≠ [] := hne
  refine ⟨?_, ?_, ?_⟩
  · intro hact
    cases hball : (radiusSearch snapshot pt.x pt.y covRadSq 10).all
        (fun mm => ¬ mm.2 < maxDistSq) with
    | false =>
      rw [insertStage_of_interior snapshot ct m acc pt hne' hball] at hact
      simp at hact
    | true =>
      rw [insertStage_of_border snapshot ct m acc pt hne' hball]
      have h2 := getD_append_right [(⟨pt.x, pt.y,
          mergedZ acc (radiusSearch snapshot pt.x pt.y covRadSq 10) pt,
          mergedRGB ct m ((acc.getD (primaryIdx (radiusSearch snapshot pt.x
            pt.y covRadSq 10)) default).rgb) pt.rgb pt.x pt.y, true⟩ :
          PointW)] (default : PointW) acc 0
      simpa [mergedZ, msOf] using h2
  · intro hact hlt
    cases hball : (radiusSearch snapshot pt.x pt.y covRadSq 10).all
        (fun mm => ¬ mm.2 < maxDistSq) with
    | true =>
      rw [insertStage_of_border snapshot ct m acc pt hne' hball] at hact
      simp at hact
    | false =>
      rw [insertStage_of_interior snapshot ct m acc pt hne' hball]
      have hlt' : primaryIdx (radiusSearch snapshot pt.x pt.y covRadSq 10)
          < acc.length := hlt
      have h2 := getD_set_cases
        ({ acc.getD (primaryIdx (radiusSearch snapshot pt.x pt.y covRadSq 10))
            default with
          z := mergedZ acc (radiusSearch snapshot pt.x pt.y covRadSq 10) pt,
          rgb := mergedRGB ct m
            ((acc.getD (primaryIdx (radiusSearch snapshot pt.x pt.y covRadSq
              10)) default).rgb) pt.rgb pt.x pt.y,
          w := true }) (default : PointW) acc
        (primaryIdx (radiusSearch snapshot pt.x pt.y covRadSq 10))
        (primaryIdx (radiusSearch snapshot pt.x pt.y covRadSq 10))
      rw [if_pos ⟨rfl, hlt'⟩] at h2
      simp only [mergedZ, msOf] at h2 ⊢
      rw [h2]
  · norm_num [zFold]

/-- Witness for C5 at the concrete two-point accumulator. -/
theorem C5_sequential_z_fold_witness :
    msOf (snapXY accTwo) ptOrigin ≠ [] ∧
    (((insertStage (snapXY accTwo) contourOne 1 accTwo ptOrigin).2.1
          = MergeAction.borderAppend →
      ((insertStage (snapXY accTwo) contourOne 1 accTwo ptOrigin).1.getD
          accTwo.length default).z
        = zFold ptOrigin.z ((msOf (snapXY accTwo) ptOrigin).map
            (fun mm => (accTwo.getD mm.1 default).z))) ∧
    ((insertStage (snapXY accTwo) contourOne 1 accTwo ptOrigin).2.1
          = MergeAction.interiorOverwrite →
      primaryIdx (msOf (snapXY accTwo) ptOrigin) < accTwo.length →
      ((insertStage (snapXY accTwo) contourOne 1 accTwo ptOrigin).1.getD
          (primaryIdx (msOf (snapXY accTwo) ptOrigin)) default).z
        = zFold ptOrigin.z ((msOf (snapXY accTwo) ptOrigin).map
            (fun mm => (accTwo.getD mm.1 default).z))) ∧
    zFold 4 [0, 0] ≠ (4 + 0 + 0) / 3) :=
  ⟨by with_unfolding_all decide,
    C5_sequential_z_fold (snapXY accTwo) contourOne 1 accTwo ptOrigin
      (by with_unfolding_all decide)⟩

/-- C4: with at least one match, an incoming point is classified border
exactly when none of its matches is strictly within `max_dist`
(line 325); a border point is appended as a new accumulator point
carrying the original x,y, the sequentially averaged z, the blended
color and blended-flag 1, with every pre-existing point untouched,
while an interior point overwrites exactly the primary match - the
match of minimal squared distance - in place, writing only the
averaged z, the blended color and flag 1 (the primary's x,y are
preserved), leaving the count and all other points unchanged. -/
theorem C4_border_interior (snapshot ct : List (ℚ × ℚ)) (m : ℚ)
    (acc : List PointW) (pt : PointC)
    (hne : msOf snapshot pt ≠ []) :
    ((insertStage snapshot ct m acc pt).2.1 = MergeAction.borderAppend ↔
      ∀ mm ∈ msOf snapshot pt, maxDistSq ≤ mm.2) ∧
    ((insertStage snapshot ct m acc pt).2.1 = MergeAction.borderAppend →
      (insertStage snapshot ct m acc pt).1.length = acc.length + 1 ∧
      (∀ i < acc.length,
        (insertStage snapshot ct m acc pt).1.getD i default
          = acc.getD i default) ∧
      ((insertStage snapshot ct m acc pt).1.getD acc.length default).x
          = pt.x ∧
      ((insertStage snapshot ct m acc pt).1.getD acc.length default).y
          = pt.y ∧
      ((insertStage snapshot ct m acc pt).1.getD acc.length default).w
          = true ∧
      ((insertStage snapshot ct m acc pt).1.getD acc.length default).z
          = mergedZ acc (msOf snapshot pt) pt ∧
      ((insertStage snapshot ct m acc pt).1.getD acc.length default).rgb
          = mergedRGB ct m
              ((acc.getD (primaryIdx (msOf snapshot pt)) default).rgb)
              pt.rgb pt.x pt.y ∧
      (insertStage snapshot ct m acc pt).1
          = acc ++ [⟨pt.x, pt.y, mergedZ acc (msOf snapshot pt) pt,
              mergedRGB ct m
                ((acc.getD (primaryIdx (msOf snapshot pt)) default).rgb)
                pt.rgb pt.x pt.y, true⟩]) ∧
    ((insertStage snapshot ct m acc pt).2.1 = MergeAction.interiorOverwrite →
      (insertStage snapshot ct m acc pt).1.length = acc.length ∧
      (∀ i, i ≠ primaryIdx (msOf snapshot pt) →
        (insertStage snapshot ct m acc pt).1.getD i default
          = acc.getD i default) ∧
      (∃ h : primaryPos (msOf snapshot pt) < (msOf snapshot pt).length,
        ((msOf snapshot pt).get ⟨primaryPos (msOf snapshot pt), h⟩).1
            = primaryIdx (msOf snapshot pt) ∧
        ∀ mm ∈ msOf snapshot pt,
          ((msOf snapshot pt).get ⟨primaryPos (msOf snapshot pt), h⟩).2
            ≤ mm.2) ∧
      ((insertStage snapshot ct m acc pt).1.getD
          (primaryIdx (msOf snapshot pt)) default).x
        = (acc.getD (primaryIdx (msOf snapshot pt)) default).x ∧
      ((insertStage snapshot ct m acc pt).1.getD
          (primaryIdx (msOf snapshot pt)) default).y
        = (acc.getD (primaryIdx (msOf snapshot pt)) default).y ∧
      (insertStage snapshot ct m acc pt).1
          = acc.set (primaryIdx (msOf snapshot pt))
              { acc.getD (primaryIdx (msOf snapshot pt)) default with
                z := mergedZ acc (msOf snapshot pt) pt,
                rgb := mergedRGB ct m
                  ((acc.getD (primaryIdx (msOf snapshot pt)) default).rgb)
                  pt.rgb pt.x pt.y,
                w := true }) := by
  have hne' : radiusSearch snapshot pt.x pt.y covRadSq 10 ≠ [] := hne
  simp only [msOf]
  cases hball : (radiusSearch snapshot pt.x pt.y covRadSq 10).all
      (fun mm => ¬ mm.2 < maxDistSq) with
  | true =>
    rw [insertStage_of_border snapshot ct m acc pt hne' hball]
    refine ⟨?_, ?_, ?_⟩
    · refine iff_of_true rfl ?_
      intro mm hmm
      have h1 := List.all_eq_true.mp hball mm hmm
      simpa using h1
    · intro _
      refine ⟨by simp, ?_, ?_, ?_, ?_, ?_, ?_, rfl⟩
      · intro i hi
        exact getD_append_left _ _ acc i hi
      all_goals
        have h2 := getD_append_right [(⟨pt.x, pt.y,
            mergedZ acc (radiusSearch snapshot pt.x pt.y covRadSq 10) pt,
            mergedRGB ct m ((acc.getD (primaryIdx (radiusSearch snapshot
              pt.x pt.y covRadSq 10)) default).rgb) pt.rgb pt.x pt.y,
            true⟩ : PointW)] (default : PointW) acc 0
        simp only [Nat.add_zero] at h2
        rw [h2]
        rfl
    · intro hact
      simp at hact
  | false =>
    rw [insertStage_of_interior snapshot ct m acc pt hne' hball]
    refine ⟨?_, ?_, ?_⟩
    · refine iff_of_false (by simp) ?_
      intro hall
      obtain ⟨mm, hmem, hdec⟩ := List.all_eq_false.mp hball
      have hlt : mm.2 < maxDistSq := by simpa using hdec
      exact absurd (hall mm hmem) (not_le.mpr hlt)
    · intro hact
      simp at hact
    · intro _
      refine ⟨by simp, ?_, ?_, ?_, ?_, rfl⟩
      · intro i hi
        have h2 := getD_set_cases
          ({ acc.getD (primaryIdx (radiusSearch snapshot pt.x pt.y covRadSq
              10)) default with
            z := mergedZ acc (radiusSearch snapshot pt.x pt.y covRadSq 10) pt,
            rgb := mergedRGB ct m ((acc.getD (primaryIdx (radiusSearch
              snapshot pt.x pt.y covRadSq 10)) default).rgb) pt.rgb pt.x
              pt.y,
            w := true }) (default : PointW) acc
          (primaryIdx (radiusSearch snapshot pt.x pt.y covRadSq 10)) i
        rw [h2, if_neg (fun hc => hi hc.1)]
      · obtain ⟨h, hfst, hmin⟩ := primary_closest
          (radiusSearch snapshot pt.x pt.y covRadSq 10) hne'
        exact ⟨h, hfst, hmin⟩
      all_goals
        have h2 := getD_set_cases
          ({ acc.getD (primaryIdx (radiusSearch snapshot pt.x pt.y covRadSq
              10)) default with
            z := mergedZ acc (radiusSearch snapshot pt.x pt.y covRadSq 10) pt,
            rgb := mergedRGB ct m ((acc.getD (primaryIdx (radiusSearch
              snapshot pt.x pt.y covRadSq 10)) default).rgb) pt.rgb pt.x
              pt.y,
            w := true }) (default : PointW) acc
          (primaryIdx (radiusSearch snapshot pt.x pt.y covRadSq 10))
          (primaryIdx (radiusSearch snapshot pt.x pt.y covRadSq 10))
        rw [h2]
        split
        · rfl
        · rfl

/-- Witness for C4 at the concrete two-point accumulator. -/
theorem C4_border_interior_witness :
    msOf (snapXY accTwo) ptOrigin ≠ [] ∧
    (((insertStage (snapXY accTwo) contourOne 1 accTwo ptOrigin).2.1
          = MergeAction.borderAppend ↔
      ∀ mm ∈ msOf (snapXY accTwo) ptOrigin, maxDistSq ≤ mm.2) ∧
    ((insertStage (snapXY accTwo) contourOne 1 accTwo ptOrigin).2.1
          = MergeAction.borderAppend →
      (insertStage (snapXY accTwo) contourOne 1 accTwo ptOrigin).1.length
          = accTwo.length + 1 ∧
      (∀ i < accTwo.length,
        (insertStage (snapXY accTwo) contourOne 1 accTwo ptOrigin).1.getD i
            default
          = accTwo.getD i default) ∧
      ((insertStage (snapXY accTwo) contourOne 1 accTwo ptOrigin).1.getD
          accTwo.length default).x = ptOrigin.x ∧
      ((insertStage (snapXY accTwo) contourOne 1 accTwo ptOrigin).1.getD
          accTwo.length default).y = ptOrigin.y ∧
      ((insertStage (snapXY accTwo) contourOne 1 accTwo ptOrigin).1.getD
          accTwo.length default).w = true ∧
      ((insertStage (snapXY accTwo) contourOne 1 accTwo ptOrigin).1.getD
          accTwo.length default).z
        = mergedZ accTwo (msOf (snapXY accTwo) ptOrigin) ptOrigin ∧
      ((insertStage (snapXY accTwo) contourOne 1 accTwo ptOrigin).1.getD
          accTwo.length default).rgb
        = mergedRGB contourOne 1
            ((accTwo.getD (primaryIdx (msOf (snapXY accTwo) ptOrigin))
              default).rgb)
            ptOrigin.rgb ptOrigin.x ptOrigin.y ∧
      (insertStage (snapXY accTwo) contourOne 1 accTwo ptOrigin).1
          = accTwo ++ [⟨ptOrigin.x, ptOrigin.y,
              mergedZ accTwo (msOf (snapXY accTwo) ptOrigin) ptOrigin,
              mergedRGB contourOne 1
                ((accTwo.getD (primaryIdx (msOf (snapXY accTwo) ptOrigin))
                  default).rgb)
                ptOrigin.rgb ptOrigin.x ptOrigin.y, true⟩]) ∧
    ((insertStage (snapXY accTwo) contourOne 1 accTwo ptOrigin).2.1
          = MergeAction.interiorOverwrite →
      (insertStage (snapXY accTwo) contourOne 1 accTwo ptOrigin).1.length
          = accTwo.length ∧
      (∀ i, i ≠ primaryIdx (msOf (snapXY accTwo) ptOrigin) →
        (insertStage (snapXY accTwo) contourOne 1 accTwo ptOrigin).1.getD i
            default
          = accTwo.getD i default) ∧
      (∃ h : primaryPos (msOf (snapXY accTwo) ptOrigin)
          < (msOf (snapXY accTwo) ptOrigin).length,
        ((msOf (snapXY accTwo) ptOrigin).get
            ⟨primaryPos (msOf (snapXY accTwo) ptOrigin), h⟩).1
            = primaryIdx (msOf (snapXY accTwo) ptOrigin) ∧
        ∀ mm ∈ msOf (snapXY accTwo) ptOrigin,
          ((msOf (snapXY accTwo) ptOrigin).get
              ⟨primaryPos (msOf (snapXY accTwo) ptOrigin), h⟩).2
            ≤ mm.2) ∧
      ((insertStage (snapXY accTwo) contourOne 1 accTwo ptOrigin).1.getD
          (primaryIdx (msOf (snapXY accTwo) ptOrigin)) default).x
        = (accTwo.getD (primaryIdx (msOf (snapXY accTwo) ptOrigin))
            default).x ∧
      ((insertStage (snapXY accTwo) contourOne 1 accTwo ptOrigin).1.getD
          (primaryIdx (msOf (snapXY accTwo) ptOrigin)) default).y
        = (accTwo.getD (primaryIdx (msOf (snapXY accTwo) ptOrigin))
            default).y ∧
      (insertStage (snapXY accTwo) contourOne 1 accTwo ptOrigin).1
          = accTwo.set (primaryIdx (msOf (snapXY accTwo) ptOrigin))
              { accTwo.getD (primaryIdx (msOf (snapXY accTwo) ptOrigin))
                  default with
                z := mergedZ accTwo (msOf (snapXY accTwo) ptOrigin) ptOrigin,
                rgb := mergedRGB contourOne 1
                  ((accTwo.getD (primaryIdx (msOf (snapXY accTwo) ptOrigin))
                    default).rgb)
                  ptOrigin.rgb ptOrigin.x ptOrigin.y,
                w := true })) :=
  ⟨by with_unfolding_all decide,
    C4_border_interior (snapXY accTwo) contourOne 1 accTwo ptOrigin
      (by with_unfolding_all decide)⟩

/-- C7: merging a cloud every point of which lies strictly farther than
the coverage radius from every accumulator point (all flags 0, as after
seeding) appends exactly the cloud's points: the accumulator size is
the sum of the two sizes, every pre-existing point is left exactly as
it was, and the border/interior classification (lines 321-355) never
runs - every point takes the disjoint-append branch of line 357. -/
theorem C7_disjoint_coverage (acc0 : List PointW) (cloud : List PointC)
    (ct : List (ℚ × ℚ))
    (hw : ∀ p ∈ acc0, p.w = false)
    (hdis : ∀ p ∈ cloud, ∀ b ∈ acc0, covRadSq < sqDistXY p.x p.y b.x b.y) :
    (mergeCloud acc0 cloud ct).length = acc0.length + cloud.length ∧
    (∀ i < acc0.length,
      (mergeCloud acc0 cloud ct).getD i default = acc0.getD i default) ∧
    ∀ a ∈ (mergeCloudTrace acc0 cloud ct).2, a = MergeAction.disjointAppend := by
  have htr := mergeCloudTrace_disjoint acc0 cloud ct hdis
  rw [map_resetW_of_all_false acc0 hw] at htr
  refine ⟨?_, ?_, ?_⟩
  · unfold mergeCloud
    rw [htr]
    simp
  · intro i hi
    unfold mergeCloud
    rw [htr]
    exact getD_append_left _ _ acc0 i hi
  · intro a ha
    rw [htr] at ha
    simp only at ha
    obtain ⟨_, _, rfl⟩ := List.mem_map.mp ha
    rfl

/-- Witness for C7: the far-away one-point accumulator and the
one-point cloud at the origin. -/
theorem C7_disjoint_coverage_witness :
    ((∀ p ∈ accFar, p.w = false) ∧
      ∀ p ∈ cloudOne, ∀ b ∈ accFar,
        covRadSq < sqDistXY p.x p.y b.x b.y) ∧
    ((mergeCloud accFar cloudOne contourOne).length
        = accFar.length + cloudOne.length ∧
    (∀ i < accFar.length,
      (mergeCloud accFar cloudOne contourOne).getD i default
        = accFar.getD i default) ∧
    ∀ a ∈ (mergeCloudTrace accFar cloudOne contourOne).2,
      a = MergeAction.disjointAppend) :=
  ⟨⟨by with_unfolding_all decide, by with_unfolding_all decide⟩,
    C7_disjoint_coverage accFar cloudOne contourOne
      (by with_unfolding_all decide) (by with_unfolding_all decide)⟩

/-- C8: for a cloud fully disjoint from the accumulator the blend
normalization `max_contour_dist` stays 0, every point takes the
disjoint-append branch - so the block containing the division by
`max_contour_dist` (line 307) is never executed - and no color is
changed: pre-existing points keep their rgb and appended points carry
the cloud's original rgb. -/
theorem C8_disjoint_blend_defined (acc0 : List PointW) (cloud : List PointC)
    (ct : List (ℚ × ℚ))
    (hdis : ∀ p ∈ cloud, ∀ b ∈ acc0, covRadSq < sqDistXY p.x p.y b.x b.y) :
    maxContourDist (snapXY (acc0.map (fun p => { p with w := false }))) ct
        cloud = 0 ∧
    (∀ a ∈ (mergeCloudTrace acc0 cloud ct).2,
      a = MergeAction.disjointAppend) ∧
    (∀ i < acc0.length,
      ((mergeCloud acc0 cloud ct).getD i default).rgb
        = (acc0.getD i default).rgb) ∧
    ∀ j < cloud.length,
      ((mergeCloud acc0 cloud ct).getD (acc0.length + j) default).rgb
        = (cloud.getD j default).rgb := by
  have htr := mergeCloudTrace_disjoint acc0 cloud ct hdis
  have hrs : ∀ p ∈ cloud, ∀ n,
      radiusSearch (snapXY (acc0.map (fun q => { q with w := false })))
        p.x p.y covRadSq n = [] := by
    intro p hp n
    apply radiusSearch_eq_nil
    intro q hq
    rw [snapXY_reset] at hq
    obtain ⟨b, hb, rfl⟩ := List.mem_map.mp hq
    exact not_le.mpr (hdis p hp b hb)
  refine ⟨?_, ?_, ?_, ?_⟩
  · exact maxContourDist_of_disjoint _ ct cloud (fun p hp => hrs p hp 1)
  · intro a ha
    rw [htr] at ha
    simp only at ha
    obtain ⟨_, _, rfl⟩ := List.mem_map.mp ha
    rfl
  · intro i hi
    unfold mergeCloud
    rw [htr]
    have hlen : i < (acc0.map (fun p => { p with w := false })).length := by
      simpa using hi
    have h3 : (acc0.map (fun p : PointW => { p with w := false })).getD i
          default
        = { acc0.getD i default with w := false } :=
      getD_map_lt _ default default acc0 i hi
    rw [getD_append_left _ _ _ i hlen, h3]
  · intro j hj
    unfold mergeCloud
    rw [htr]
    have hlen : acc0.length
        = (acc0.map (fun p => { p with w := false })).length := by
      simp
    rw [hlen, getD_append_right _ _ _ j,
      getD_map_lt mkNewPoint default default cloud j hj]
    rfl

/-- Witness for C8: the far-away one-point accumulator and the
one-point cloud at the origin. -/
theorem C8_disjoint_blend_defined_witness :
    (∀ p ∈ cloudOne, ∀ b ∈ accFar,
        covRadSq < sqDistXY p.x p.y b.x b.y) ∧
    (maxContourDist (snapXY (accFar.map (fun p => { p with w := false })))
        contourOne cloudOne = 0 ∧
    (∀ a ∈ (mergeCloudTrace accFar cloudOne contourOne).2,
      a = MergeAction.disjointAppend) ∧
    (∀ i < accFar.length,
      ((mergeCloud accFar cloudOne contourOne).getD i default).rgb
        = (accFar.getD i default).rgb) ∧
    ∀ j < cloudOne.length,
      ((mergeCloud accFar cloudOne contourOne).getD (accFar.length + j)
          default).rgb
        = (cloudOne.getD j default).rgb) :=
  ⟨by with_unfolding_all decide,
    C8_disjoint_blend_defined accFar cloudOne contourOne
      (by with_unfolding_all decide)⟩

/-- Counterexample to C2 as stated: processing the single incoming
point `ptOrigin` against the two-point accumulator `accTwo` appends
nothing (the length stays 2) yet mutates BOTH pre-existing accumulator
points - the primary match is overwritten (z/rgb/flag, line 354) and
the second match is additionally mutated by the collateral fix-up
(rgb/flag, line 410).  So one incoming point can mutate more than one
existing accumulator point. -/
theorem C2_counterexample :
    (processPoint (snapXY accTwo) contourOne (cloudXYof cloudOne) cloudOne 1
        accTwo ptOrigin).length = accTwo.length ∧
    mutatedCount accTwo (processPoint (snapXY accTwo) contourOne
        (cloudXYof cloudOne) cloudOne 1 accTwo ptOrigin) = 2 := by
  with_unfolding_all decide

/-- C2 (amended): processing one incoming point either appends exactly
one new point or keeps the count; every pre-existing point it mutates
is among that point's radius matches; x and y of pre-existing points
are never mutated; and at most one existing point - the primary match,
and only in the interior-overwrite case - has its z mutated.  (The
original claim's "mutates exactly one existing point" fails because the
collateral fix-up may additionally re-color and re-flag further matched
points; see the counterexample.) -/
theorem C2_amended_merge_frame (snapshot ct cx : List (ℚ × ℚ))
    (cl : List PointC) (m : ℚ) (acc : List PointW) (pt : PointC)
    (hsl : snapshot.length ≤ acc.length) :
    ((processPoint snapshot ct cx cl m acc pt).length = acc.length ∨
      (processPoint snapshot ct cx cl m acc pt).length = acc.length + 1) ∧
    ∀ i, i < acc.length →
      (processPoint snapshot ct cx cl m acc pt).getD i default
          ≠ acc.getD i default →
      i ∈ (msOf snapshot pt).map Prod.fst ∧
      ((processPoint snapshot ct cx cl m acc pt).getD i default).x
          = (acc.getD i default).x ∧
      ((processPoint snapshot ct cx cl m acc pt).getD i default).y
          = (acc.getD i default).y ∧
      (((processPoint snapshot ct cx cl m acc pt).getD i default).z
          ≠ (acc.getD i default).z →
        (insertStage snapshot ct m acc pt).2.1
            = MergeAction.interiorOverwrite ∧
        i = primaryIdx (msOf snapshot pt)) := by
  have hpp : processPoint snapshot ct cx cl m acc pt
      = fixupStage ct cx cl m (insertStage snapshot ct m acc pt).1
          (insertStage snapshot ct m acc pt).2.2 := rfl
  by_cases hnil : radiusSearch snapshot pt.x pt.y covRadSq 10 = []
  · have hins := insertStage_of_nil snapshot ct m acc pt hnil
    have hfull : processPoint snapshot ct cx cl m acc pt
        = acc ++ [mkNewPoint pt] := by
      rw [hpp, hins]
      rfl
    refine ⟨Or.inr (by rw [hfull]; simp), ?_⟩
    intro i hi hne2
    rw [hfull] at hne2
    exact absurd (getD_append_left _ _ acc i hi) hne2
  · have hnd := radiusSearch_fst_nodup snapshot pt.x pt.y covRadSq 10
    cases hball : (radiusSearch snapshot pt.x pt.y covRadSq 10).all
        (fun mm => ¬ mm.2 < maxDistSq) with
    | true =>
      have hins := insertStage_of_border snapshot ct m acc pt hnil hball
      have hacc1 : (insertStage snapshot ct m acc pt).1
          = acc ++ [⟨pt.x, pt.y,
              mergedZ acc (radiusSearch snapshot pt.x pt.y covRadSq 10) pt,
              mergedRGB ct m ((acc.getD (primaryIdx (radiusSearch snapshot
                pt.x pt.y covRadSq 10)) default).rgb) pt.rgb pt.x pt.y,
              true⟩] := by
        rw [hins]
      have hov : (insertStage snapshot ct m acc pt).2.2
          = (radiusSearch snapshot pt.x pt.y covRadSq 10).map Prod.fst := by
        rw [hins]
      have hfull : processPoint snapshot ct cx cl m acc pt
          = fixupStage ct cx cl m ((insertStage snapshot ct m acc pt).1)
              ((radiusSearch snapshot pt.x pt.y covRadSq 10).map Prod.fst)
          := by
        rw [hpp, hov]
      have hbound : ∀ j ∈ (radiusSearch snapshot pt.x pt.y covRadSq 10).map
          Prod.fst, j < ((insertStage snapshot ct m acc pt).1).length := by
        intro j hj
        have h1 := radiusSearch_fst_lt snapshot pt.x pt.y covRadSq 10 j hj
        rw [hacc1]
        simp only [List.length_append, List.length_cons, List.length_nil]
        omega
      have hch := fixupStage_getD_char ct cx cl m
        ((radiusSearch snapshot pt.x pt.y covRadSq 10).map Prod.fst)
        ((insertStage snapshot ct m acc pt).1) hnd hbound
      refine ⟨Or.inr ?_, ?_⟩
      · rw [hfull, fixupStage_length, hacc1]
        simp
      · intro i hi hne2
        have happ : ((insertStage snapshot ct m acc pt).1).getD i default
            = acc.getD i default := by
          rw [hacc1]
          exact getD_append_left _ _ acc i hi
        have hchi := hch i
        rw [happ] at hchi
        by_cases hiov : i ∈ (radiusSearch snapshot pt.x pt.y covRadSq
            10).map Prod.fst
        · rw [if_pos hiov] at hchi
          rw [hfull, hchi]
          refine ⟨hiov, fixupPoint_x ct cx cl m _, fixupPoint_y ct cx cl m _,
            ?_⟩
          intro hz
          exact absurd (fixupPoint_z ct cx cl m (acc.getD i default)) hz
        · rw [if_neg hiov] at hchi
          rw [hfull, hchi] at hne2
          exact absurd rfl hne2
    | false =>
      have hins := insertStage_of_interior snapshot ct m acc pt hnil hball
      have hplt : primaryIdx (radiusSearch snapshot pt.x pt.y covRadSq 10)
          < acc.length := by
        have hmem := primaryIdx_mem
          (radiusSearch snapshot pt.x pt.y covRadSq 10) hnil
        have h1 := radiusSearch_fst_lt snapshot pt.x pt.y covRadSq 10 _ hmem
        omega
      have hacc1 : (insertStage snapshot ct m acc pt).1
          = acc.set (primaryIdx (radiusSearch snapshot pt.x pt.y covRadSq 10))
              { acc.getD (primaryIdx (radiusSearch snapshot pt.x pt.y
                  covRadSq 10)) default with
                z := mergedZ acc (radiusSearch snapshot pt.x pt.y covRadSq 10)
                  pt,
                rgb := mergedRGB ct m ((acc.getD (primaryIdx (radiusSearch
                  snapshot pt.x pt.y covRadSq 10)) default).rgb) pt.rgb pt.x
                  pt.y,
                w := true } := by
        rw [hins]
      have hact : (insertStage snapshot ct m acc pt).2.1
          = MergeAction.interiorOverwrite := by
        rw [hins]
      have hov : (insertStage snapshot ct m acc pt).2.2
          = (radiusSearch snapshot pt.x pt.y covRadSq 10).map Prod.fst := by
        rw [hins]
      have hfull : processPoint snapshot ct cx cl m acc pt
          = fixupStage ct cx cl m ((insertStage snapshot ct m acc pt).1)
              ((radiusSearch snapshot pt.x pt.y covRadSq 10).map Prod.fst)
          := by
        rw [hpp, hov]
      have hbound : ∀ j ∈ (radiusSearch snapshot pt.x pt.y covRadSq 10).map
          Prod.fst, j < ((insertStage snapshot ct m acc pt).1).length := by
        intro j hj
        have h1 := radiusSearch_fst_lt snapshot pt.x pt.y covRadSq 10 j hj
        rw [hacc1, List.length_set]
        omega
      have hch := fixupStage_getD_char ct cx cl m
        ((radiusSearch snapshot pt.x pt.y covRadSq 10).map Prod.fst)
        ((insertStage snapshot ct m acc pt).1) hnd hbound
      have hset : ∀ i : ℕ, ((insertStage snapshot ct m acc pt).1).getD i
          default
          = if i = primaryIdx (radiusSearch snapshot pt.x pt.y covRadSq 10)
                ∧ primaryIdx (radiusSearch snapshot pt.x pt.y covRadSq 10)
                  < acc.length
            then { acc.getD (primaryIdx (radiusSearch snapshot pt.x pt.y
                    covRadSq 10)) default with
                  z := mergedZ acc (radiusSearch snapshot pt.x pt.y covRadSq
                    10) pt,
                  rgb := mergedRGB ct m ((acc.getD (primaryIdx (radiusSearch
                    snapshot pt.x pt.y covRadSq 10)) default).rgb) pt.rgb
                    pt.x pt.y,
                  w := true }
            else acc.getD i default := by
        intro i
        rw [hacc1]
        exact getD_set_cases _ _ acc _ i
      refine ⟨Or.inl ?_, ?_⟩
      · rw [hfull, fixupStage_length, hacc1, List.length_set]
      · intro i hi hne2
        have hchi := hch i
        by_cases hiov : i ∈ (radiusSearch snapshot pt.x pt.y covRadSq
            10).map Prod.fst
        · rw [if_pos hiov] at hchi
          by_cases hiprim : i = primaryIdx (radiusSearch snapshot pt.x pt.y
              covRadSq 10)
          · have hseti := hset i
            rw [if_pos ⟨hiprim, hplt⟩] at hseti
            rw [hfull, hchi, hseti]
            refine ⟨hiov, ?_, ?_, ?_⟩
            · rw [fixupPoint_x, hiprim]
            · rw [fixupPoint_y, hiprim]
            · intro _
              exact ⟨hact, hiprim⟩
          · have hseti := hset i
            rw [if_neg (fun hc => hiprim hc.1)] at hseti
            rw [hfull, hchi, hseti]
            refine ⟨hiov, fixupPoint_x ct cx cl m _, fixupPoint_y ct cx cl m _,
              ?_⟩
            intro hz
            exact absurd (fixupPoint_z ct cx cl m (acc.getD i default)) hz
        · have hiprim : i ≠ primaryIdx (radiusSearch snapshot pt.x pt.y
              covRadSq 10) := by
            intro hc
            rw [hc] at hiov
            exact hiov (primaryIdx_mem _ hnil)
          have hseti := hset i
          rw [if_neg (fun hc => hiprim hc.1)] at hseti
          rw [if_neg hiov] at hchi
          rw [hfull, hchi, hseti] at hne2
          exact absurd rfl hne2

/-! ### The nearest-1 query succeeds on nonempty snapshots -/

lemma foldl_choose_isSome :
    ∀ (l : List (ℕ × ℚ)) (b : ℕ × ℚ),
      (l.foldl
        (fun best cand =>
          match best with
          | none => some cand
          | some bb => if cand.2 < bb.2 then some cand else some bb)
        (some b)).isSome = true
  | [], _ => rfl
  | c :: t, b => by
    rw [List.foldl_cons]
    show (t.foldl _ (if c.2 < b.2 then some c else some b)).isSome = true
    by_cases h : c.2 < b.2
    · rw [if_pos h]
      exact foldl_choose_isSome t c
    · rw [if_neg h]
      exact foldl_choose_isSome t b

lemma nearest1_isSome (pts : List (ℚ × ℚ)) (sx sy : ℚ) (h : pts ≠ []) :
    (nearest1 pts sx sy).isSome = true := by
  unfold nearest1
  have hne2 : pts.enum.map
      (fun ip => (ip.1, sqDistXY sx sy ip.2.1 ip.2.2)) ≠ [] := by
    simp [h]
  obtain ⟨c, t2, hct⟩ := List.exists_cons_of_ne_nil hne2
  rw [hct, List.foldl_cons]
  exact foldl_choose_isSome t2 c

lemma fixupPoint_w_of_false (ct cx : List (ℚ × ℚ)) (cl : List PointC)
    (m : ℚ) (p : PointW) (hw : p.w = false) (hcx : cx ≠ []) (hct : ct ≠ []) :
    (fixupPoint ct cx cl m p).w = true := by
  obtain ⟨r1, hr1⟩ :=
    Option.isSome_iff_exists.mp (nearest1_isSome cx p.x p.y hcx)
  obtain ⟨r2, hr2⟩ :=
    Option.isSome_iff_exists.mp (nearest1_isSome ct p.x p.y hct)
  simp [fixupPoint, hw, hr1, hr2]

lemma primaryIdx_singleton (ms : List (ℕ × ℚ))
    (h : ms.map Prod.fst = [0]) : primaryIdx ms = 0 := by
  match ms with
  | [] => simp at h
  | [a] =>
    simp at h
    simp [primaryIdx, primaryPos, minIdxPos, List.min?, h]
  | a :: b :: t => simp at h

set_option maxRecDepth 16000 in
/-- Counterexample to C3 as stated: against the one-point accumulator
`accOne`, the incoming point `ptOrigin` is classified border, its
single radius match (snapshot index 0) is therefore also the primary
(closest) match, the insert stage leaves that point untouched with
flag 0, and the collateral fix-up then re-blends it - its color
changes and it is marked blended.  So the fix-up does re-blend the
primary match (in the border case), contradicting "the primary match
is never re-blended by the fix-up". -/
theorem C3_counterexample :
    (insertStage (snapXY accOne) contourOne 1 accOne ptOrigin).2.1
        = MergeAction.borderAppend ∧
    ((msOf (snapXY accOne) ptOrigin).map Prod.fst = [0] ∧
      primaryIdx (msOf (snapXY accOne) ptOrigin) = 0) ∧
    ((insertStage (snapXY accOne) contourOne 1 accOne ptOrigin).1.getD 0
        default).w = false ∧
    ((processPoint (snapXY accOne) contourOne (cloudXYof cloudOne) cloudOne 1
        accOne ptOrigin).getD 0 default).w = true ∧
    ((processPoint (snapXY accOne) contourOne (cloudXYof cloudOne) cloudOne 1
        accOne ptOrigin).getD 0 default).rgb
      ≠ ((insertStage (snapXY accOne) contourOne 1 accOne ptOrigin).1.getD 0
        default).rgb :=
  ⟨by with_unfolding_all decide,
    ⟨by with_unfolding_all decide,
      primaryIdx_singleton _ (by with_unfolding_all decide)⟩,
    by with_unfolding_all decide, by with_unfolding_all decide,
    by with_unfolding_all decide⟩

/-- C3 (amended): during the collateral fix-up for an incoming point p,
exactly those accumulator points that were among p's radius matches AND
still carry blended-flag 0 after the insert stage are re-blended (color
from the nearest point of the current incoming cloud, flag set to 1,
provided the cloud and contour searches succeed); points already
flagged 1 are skipped.  The primary match is among the skipped points
only in the interior case (where the insert stage just overwrote it
with flag 1); in the border case the insert stage leaves every
pre-existing point - the primary included - untouched, so a flag-0
primary IS re-blended by the fix-up (see the counterexample). -/
theorem C3_amended_fixup_exact (snapshot ct cx : List (ℚ × ℚ))
    (cl : List PointC) (m : ℚ) (acc : List PointW) (pt : PointC)
    (hsl : snapshot.length ≤ acc.length) :
    (∀ i : ℕ,
      (processPoint snapshot ct cx cl m acc pt).getD i default =
        if i ∈ (insertStage snapshot ct m acc pt).2.2
        then fixupPoint ct cx cl m
          ((insertStage snapshot ct m acc pt).1.getD i default)
        else (insertStage snapshot ct m acc pt).1.getD i default) ∧
    (∀ p : PointW, p.w = true → fixupPoint ct cx cl m p = p) ∧
    (∀ p : PointW, p.w = false → cx ≠ [] → ct ≠ [] →
      (fixupPoint ct cx cl m p).w = true) ∧
    ((insertStage snapshot ct m acc pt).2.1 = MergeAction.borderAppend →
      ∀ i < acc.length,
        (insertStage snapshot ct m acc pt).1.getD i default
          = acc.getD i default) := by
  have hpp : processPoint snapshot ct cx cl m acc pt
      = fixupStage ct cx cl m (insertStage snapshot ct m acc pt).1
          (insertStage snapshot ct m acc pt).2.2 := rfl
  refine ⟨?_, ?_, ?_, ?_⟩
  · intro i
    by_cases hnil : radiusSearch snapshot pt.x pt.y covRadSq 10 = []
    · have hov : (insertStage snapshot ct m acc pt).2.2 = [] := by
        rw [insertStage_of_nil snapshot ct m acc pt hnil]
      rw [hpp, hov, fixupStage_nil]
      simp
    · have hov : (insertStage snapshot ct m acc pt).2.2
          = (radiusSearch snapshot pt.x pt.y covRadSq 10).map Prod.fst := by
        cases hball : (radiusSearch snapshot pt.x pt.y covRadSq 10).all
            (fun mm => ¬ mm.2 < maxDistSq) with
        | true => rw [insertStage_of_border snapshot ct m acc pt hnil hball]
        | false =>
          rw [insertStage_of_interior snapshot ct m acc pt hnil hball]
      have hlen1 : acc.length
          ≤ ((insertStage snapshot ct m acc pt).1).length := by
        cases hball : (radiusSearch snapshot pt.x pt.y covRadSq 10).all
            (fun mm => ¬ mm.2 < maxDistSq) with
        | true =>
          rw [insertStage_of_border snapshot ct m acc pt hnil hball]
          simp
        | false =>
          rw [insertStage_of_interior snapshot ct m acc pt hnil hball]
          simp
      have hbound : ∀ j ∈ (radiusSearch snapshot pt.x pt.y covRadSq 10).map
          Prod.fst, j < ((insertStage snapshot ct m acc pt).1).length := by
        intro j hj
        have h1 := radiusSearch_fst_lt snapshot pt.x pt.y covRadSq 10 j hj
        omega
      have hch := fixupStage_getD_char ct cx cl m
        ((radiusSearch snapshot pt.x pt.y covRadSq 10).map Prod.fst)
        ((insertStage snapshot ct m acc pt).1)
        (radiusSearch_fst_nodup snapshot pt.x pt.y covRadSq 10) hbound i
      rw [hpp, hov]
      exact hch
  · intro p hw
    simp [fixupPoint, hw]
  · exact fun p hw hcx hct => fixupPoint_w_of_false ct cx cl m p hw hcx hct
  · intro hact i hi
    by_cases hnil : radiusSearch snapshot pt.x pt.y covRadSq 10 = []
    · rw [insertStage_of_nil snapshot ct m acc pt hnil] at hact
      simp at hact
    · cases hball : (radiusSearch snapshot pt.x pt.y covRadSq 10).all
          (fun mm => ¬ mm.2 < maxDistSq) with
      | false =>
        rw [insertStage_of_interior snapshot ct m acc pt hnil hball] at hact
        simp at hact
      | true =>
        have hacc1 : (insertStage snapshot ct m acc pt).1
            = acc ++ [⟨pt.x, pt.y,
                mergedZ acc (radiusSearch snapshot pt.x pt.y covRadSq 10) pt,
                mergedRGB ct m ((acc.getD (primaryIdx (radiusSearch snapshot
                  pt.x pt.y covRadSq 10)) default).rgb) pt.rgb pt.x pt.y,
                true⟩] := by
          rw [insertStage_of_border snapshot ct m acc pt hnil hball]
        rw [hacc1]
        exact getD_append_left _ _ acc i hi

/-- Witness for the amended C2 at the concrete two-point accumulator. -/
theorem C2_amended_merge_frame_witness :
    (snapXY accTwo).length ≤ accTwo.length ∧
    (((processPoint (snapXY accTwo) contourOne (cloudXYof cloudOne) cloudOne
          1 accTwo ptOrigin).length = accTwo.length ∨
      (processPoint (snapXY accTwo) contourOne (cloudXYof cloudOne) cloudOne
          1 accTwo ptOrigin).length = accTwo.length + 1) ∧
    ∀ i, i < accTwo.length →
      (processPoint (snapXY accTwo) contourOne (cloudXYof cloudOne) cloudOne
          1 accTwo ptOrigin).getD i default
          ≠ accTwo.getD i default →
      i ∈ (msOf (snapXY accTwo) ptOrigin).map Prod.fst ∧
      ((processPoint (snapXY accTwo) contourOne (cloudXYof cloudOne) cloudOne
          1 accTwo ptOrigin).getD i default).x
          = (accTwo.getD i default).x ∧
      ((processPoint (snapXY accTwo) contourOne (cloudXYof cloudOne) cloudOne
          1 accTwo ptOrigin).getD i default).y
          = (accTwo.getD i default).y ∧
      (((processPoint (snapXY accTwo) contourOne (cloudXYof cloudOne)
          cloudOne 1 accTwo ptOrigin).getD i default).z
          ≠ (accTwo.getD i default).z →
        (insertStage (snapXY accTwo) contourOne 1 accTwo ptOrigin).2.1
            = MergeAction.interiorOverwrite ∧
        i = primaryIdx (msOf (snapXY accTwo) ptOrigin))) :=
  ⟨by simp [snapXY, accTwo],
    C2_amended_merge_frame (snapXY accTwo) contourOne (cloudXYof cloudOne)
      cloudOne 1 accTwo ptOrigin (by simp [snapXY, accTwo])⟩

/-- Witness for the amended C3 at the concrete one-point accumulator. -/
theorem C3_amended_fixup_exact_witness :
    (snapXY accOne).length ≤ accOne.length ∧
    ((∀ i : ℕ,
      (processPoint (snapXY accOne) contourOne (cloudXYof cloudOne) cloudOne
          1 accOne ptOrigin).getD i default =
        if i ∈ (insertStage (snapXY accOne) contourOne 1 accOne
            ptOrigin).2.2
        then fixupPoint contourOne (cloudXYof cloudOne) cloudOne 1
          ((insertStage (snapXY accOne) contourOne 1 accOne ptOrigin).1.getD
            i default)
        else (insertStage (snapXY accOne) contourOne 1 accOne
          ptOrigin).1.getD i default) ∧
    (∀ p : PointW, p.w = true →
      fixupPoint contourOne (cloudXYof cloudOne) cloudOne 1 p = p) ∧
    (∀ p : PointW, p.w = false → cloudXYof cloudOne ≠ [] → contourOne ≠ [] →
      (fixupPoint contourOne (cloudXYof cloudOne) cloudOne 1 p).w = true) ∧
    ((insertStage (snapXY accOne) contourOne 1 accOne ptOrigin).2.1
        = MergeAction.borderAppend →
      ∀ i < accOne.length,
        (insertStage (snapXY accOne) contourOne 1 accOne ptOrigin).1.getD i
            default
          = accOne.getD i default)) :=
  ⟨by simp [snapXY, accOne],
    C3_amended_fixup_exact (snapXY accOne) contourOne (cloudXYof cloudOne)
      cloudOne 1 accOne ptOrigin (by simp [snapXY, accOne])⟩
